import Mathlib

/-!
Verification of the SQL-WatchPup repository: a shallow embedding of its
table-lineage extraction engine (src/data_lineage/generate_lineage.py and
src/lineage_mapper/lineage.py) and of its data-quality test runner
(src/data_quality/run_dq_tests.py, src/quality_checks/quality_check.py),
together with theorems settling the specification's claims.

SQL texts are modelled as `List Char` (wrapped in `String` at the API).
Python's regular-expression scans are modelled by hand-written scanners
that reproduce `re.finditer` semantics for the concrete patterns the code
uses: left-to-right scanning, non-overlapping matches, and the (trivial,
because the character classes involved are disjoint) backtracking
behaviour of each concrete pattern.  Python's `str.lower` is modelled for
the ASCII range, which covers every character the patterns can match.
The external `sqllineage` library (the structured-parse layer) is not part
of the repository; it is abstracted as an oracle argument
(`Option (List String)`, `none` modelling a raised parse exception).
-/

namespace SqlWatchPup

/-- ASCII lower-casing, the effect of Python's `str.lower()` on the ASCII
characters that the repository's regexes and identifiers involve
(`Char.toLower` maps exactly the basic latin letters `A`-`Z`). -/
def asciiLower (c : Char) : Char :=
  c.toLower

/-- Python's `\s` class (ASCII range): space, tab, newline, carriage
return, vertical tab, form feed. -/
def pyIsSpace (c : Char) : Bool :=
  c = ' ' || c = '\t' || c = '\n' || c = '\r' || c = '\x0b' || c = '\x0c'

/-- The character class `[a-zA-Z0-9_]` used by the identifier regexes. -/
def isIdentChar (c : Char) : Bool :=
  c.isAlpha || c.isDigit || c = '_'

/-- The character class `[a-zA-Z0-9_\-]` (identifier with hyphen). -/
def isIdentHyphen (c : Char) : Bool :=
  isIdentChar c || c = '-'

/-- Class `[a-z_]`, used by the CTE pattern `^c\d+(_[a-z_]+)?$`. -/
def isLowerUnder (c : Char) : Bool :=
  ('a' ≤ c && c ≤ 'z') || c = '_'

/-- Class `[a-z0-9_]`, used by the CTE pattern `^temp_[a-z0-9_]+$`. -/
def isLowerDigitUnder (c : Char) : Bool :=
  ('a' ≤ c && c ≤ 'z') || c.isDigit || c = '_'

/-- Literal-prefix test (`str.startswith`). -/
def startsWithL : List Char → List Char → Bool
  | [], _ => true
  | _ :: _, [] => false
  | p :: ps, c :: cs => p = c && startsWithL ps cs

/-- Case-insensitive prefix test against an already lower-case pattern,
modelling a literal matched under `re.IGNORECASE`. -/
def startsWithCI : List Char → List Char → Bool
  | [], _ => true
  | _ :: _, [] => false
  | p :: ps, c :: cs => asciiLower c = p && startsWithCI ps cs

/-- Literal-suffix test (`str.endswith`). -/
def endsWithL (pat l : List Char) : Bool :=
  startsWithL pat.reverse l.reverse

/-- Python `str.strip()`: drop leading and trailing whitespace. -/
def pyStrip (l : List Char) : List Char :=
  ((l.dropWhile pyIsSpace).reverse.dropWhile pyIsSpace).reverse

/-- Python `str.split('.')`: the (never empty) list of dot-separated
segments; `"".split('.') == ['']`. -/
def splitDot : List Char → List (List Char)
  | [] => [[]]
  | c :: rest =>
    if c = '.' then [] :: splitDot rest
    else
      match splitDot rest with
      | h :: t => (c :: h) :: t
      | [] => [[c]]

/-- Python `str.split('\n')`. -/
def splitNl : List Char → List (List Char)
  | [] => [[]]
  | c :: rest =>
    if c = '\n' then [] :: splitNl rest
    else
      match splitNl rest with
      | h :: t => (c :: h) :: t
      | [] => [[c]]

/-- Substring containment, Python's `pat in text`. -/
def containsSub (pat : List Char) : List Char → Bool
  | [] => startsWithL pat []
  | c :: rest => startsWithL pat (c :: rest) || containsSub pat rest

/-- Case-insensitive substring containment (an occurrence of the
lower-case pattern under `re.IGNORECASE`). -/
def containsSubCI (pat : List Char) : List Char → Bool
  | [] => startsWithCI pat []
  | c :: rest => startsWithCI pat (c :: rest) || containsSubCI pat rest

/-- Python `str.replace(old, new)`: every non-overlapping occurrence of
`old` (scanned left to right) replaced by `new`.  The second `Nat`
argument is the number of characters still to skip because they were
consumed by a replaced occurrence; callers pass `0`. -/
def pyReplace (old new : List Char) : List Char → Nat → List Char
  | [], _ => []
  | _ :: rest, s + 1 => pyReplace old new rest s
  | c :: rest, 0 =>
    if old ≠ [] ∧ startsWithL old (c :: rest) then
      new ++ pyReplace old new rest (old.length - 1)
    else c :: pyReplace old new rest 0

/-- Generic model of `re.finditer`: scan left to right; at each position
try the position matcher `m`, which returns a payload and the number of
characters the match consumed (always at least 1 for the patterns
modelled here); on success emit the payload and resume after the match,
on failure advance one character.  The `Nat` argument is the number of
positions still to skip inside the previous match; callers pass `0`. -/
def scanMatches {α : Type} (m : List Char → Option (α × Nat)) : List Char → Nat → List α
  | [], _ => []
  | _ :: rest, s + 1 => scanMatches m rest s
  | c :: rest, 0 =>
    match m (c :: rest) with
    | some (a, n) => a :: scanMatches m rest (n - 1)
    | none => scanMatches m rest 0

end SqlWatchPup

namespace GenerateLineage

open SqlWatchPup

/-- Position of the first occurrence of the two characters `*/` (the
non-greedy `.*?\*/` of the block-comment regex finds the nearest
closer). -/
def findClose : List Char → Option Nat
  | c :: c2 :: rest =>
    if c = '*' ∧ c2 = '/' then some 0
    else (findClose (c2 :: rest)).map (· + 1)
  | _ => none

/-- First half of `SQLLineageMapper.remove_comments`
(src/data_lineage/generate_lineage.py:210):
`re.sub(r'/\*.*?\*/', ' ', sql, flags=re.DOTALL)`.  Each block comment
`/* ... */` (shortest closer) is replaced by one space; a `/*` with no
later `*/` matches nothing, and then nothing after it can match either,
since no `*/` remains.  The `Nat` argument skips the remainder of a
replaced comment; callers pass `0`. -/
def stripBlockAux : List Char → Nat → List Char
  | [], _ => []
  | _ :: rest, s + 1 => stripBlockAux rest s
  | [c], 0 => [c]
  | c :: c2 :: rest2, 0 =>
    if c = '/' ∧ c2 = '*' then
      match findClose rest2 with
      | some j => ' ' :: stripBlockAux rest2 (j + 2)
      | none => c :: c2 :: rest2
    else c :: stripBlockAux (c2 :: rest2) 0

/-- Second half of `SQLLineageMapper.remove_comments`
(src/data_lineage/generate_lineage.py:212):
`re.sub(r'--.*$', '', sql, flags=re.MULTILINE)` — from each `--` to the
end of its line (the newline itself is kept) everything is deleted.
The `Bool` is true while inside a line comment. -/
def stripLineAux : List Char → Bool → List Char
  | [], _ => []
  | c :: rest, true =>
    if c = '\n' then '\n' :: stripLineAux rest false else stripLineAux rest true
  | [c], false => [c]
  | c :: c2 :: rest2, false =>
    if c = '-' ∧ c2 = '-' then stripLineAux rest2 true
    else c :: stripLineAux (c2 :: rest2) false

/-- Model of `SQLLineageMapper.remove_comments` (src/data_lineage/generate_lineage.py
lines 207-213): strip `/* ... */` block comments (each replaced by one
space), then strip `-- ...` line comments. -/
def remove_comments (s : String) : String :=
  String.mk (stripLineAux (stripBlockAux s.data 0) false)

/-- Model of `self.sql_functions` (src/data_lineage/generate_lineage.py lines 44-48),
the SQL functions that should not be considered tables.  The Python set
literal is modelled as a list used only through membership. -/
def sql_functions : List String :=
  ["table", "unnest", "lateral", "flatten", "json_table",
   "array", "values", "contains", "coalesce", "substr",
   "cast", "format", "grouping", "sets", "count", "sum"]

/-- Model of `known_ctes` inside `is_cte_name` (src/data_lineage/generate_lineage.py
lines 186-187), listed exactly as in the source (including the repeated
`c66`; only membership is used). -/
def known_ctes : List String :=
  ["ccy", "c66", "c67", "c70", "c67_base", "c70_base", "column_item",
   "entities", "c67_amount", "c66", "c70_uni", "c67_uni", "cte_1"]

/-- Python's `$` without `re.MULTILINE`: end of string, or just before a
single trailing newline. -/
def pyDollarEnd (l : List Char) : Bool :=
  l = [] || l = ['\n']

/-- Model of `re.match(r'^c\d+(_[a-z_]+)?$', name)`. -/
def matchCtePat1 (l : List Char) : Bool :=
  match l with
  | 'c' :: rest =>
    let ds := rest.takeWhile Char.isDigit
    if ds = [] then false
    else
      let r2 := rest.drop ds.length
      pyDollarEnd r2 ||
        (match r2 with
         | '_' :: r3 =>
           let az := r3.takeWhile isLowerUnder
           az ≠ [] ∧ pyDollarEnd (r3.drop az.length)
         | _ => false)
  | _ => false

/-- Model of `re.match(r'^cte_\d+$', name)`. -/
def matchCtePat2 (l : List Char) : Bool :=
  if startsWithL "cte_".data l then
    let r := l.drop 4
    let ds := r.takeWhile Char.isDigit
    ds ≠ [] ∧ pyDollarEnd (r.drop ds.length)
  else false

/-- Model of `re.match(r'^temp_[a-z0-9_]+$', name)`. -/
def matchCtePat3 (l : List Char) : Bool :=
  if startsWithL "temp_".data l then
    let r := l.drop 5
    let run := r.takeWhile isLowerDigitUnder
    run ≠ [] ∧ pyDollarEnd (r.drop run.length)
  else false

/-- Model of `SQLLineageMapper.is_cte_name` (src/data_lineage/generate_lineage.py
lines 179-205).  `name.split('.')[-1]` is the last dot-separated segment
(the code's `if '.' in name` guard is redundant: with no dot that is the
whole name); the result is checked against `known_ctes` and the three
CTE naming patterns. -/
def is_cte_name (name : String) : Bool :=
  let nm := (splitDot name.data).getLastD []
  known_ctes.contains (String.mk nm) || matchCtePat1 nm ||
    matchCtePat2 nm || matchCtePat3 nm

/-- One step of the `for table in lineage.source_tables` loop of
`SQLLineageMapper.extract_parent_tables` STEP 1
(src/data_lineage/generate_lineage.py lines 110-134), folded over the
table strings the external `sqllineage` parser returned.  When
`table_str.split('.')` does not have exactly two parts, the Python
unpacking `schema, table_name = table_str.split('.')` raises
`ValueError`; the surrounding `try` then ends STEP 1 keeping the tables
accumulated so far, which the non-recursive `| _ => acc` branch models. -/
def step1_tables (sql : List Char) : List String → Finset String → Finset String
  | [], acc => acc
  | t :: ts, acc =>
    let tl := t.data.map asciiLower
    let tls := String.mk tl
    if sql_functions.any (fun func => func = tls || endsWithL ("." ++ func).data tl) then
      step1_tables sql ts acc
    else if is_cte_name tls then
      step1_tables sql ts acc
    else if tl.contains '.' then
      if containsSub "_placeholder".data tl ∧ containsSub "{schema}".data sql then
        match splitDot tl with
        | [sch, tbl] =>
          let schema := pyReplace "_placeholder".data [] sch 0
          let table_name := if sql.contains '-' then pyReplace ['_'] ['-'] tbl 0 else tbl
          step1_tables sql ts
            (insert (String.mk ('{' :: schema ++ '}' :: '.' :: table_name)) acc)
        | _ => acc
      else
        step1_tables sql ts (insert tls acc)
    else
      step1_tables sql ts acc

/-- The whole of STEP 1 of `extract_parent_tables`: `primary` abstracts the
external `sqllineage` library's `LineageRunner(...).source_tables`
(`none` models the parser raising, which the code catches, leaving the
table set empty). -/
def step1_result (primary : Option (List String)) (sql : List Char) : Finset String :=
  match primary with
  | none => ∅
  | some ts => step1_tables sql ts ∅

/-- Position matcher for the STEP 2 pattern
`r'\{([^}]+)\}\.([a-zA-Z0-9_\-]+)'`
(src/data_lineage/generate_lineage.py line 145): brace-wrapped schema,
dot, hyphen-extended identifier.  Returns the two capture groups and the
length of the match. -/
def matchBrace (l : List Char) : Option ((List Char × List Char) × Nat) :=
  match l with
  | [] => none
  | c :: l1 =>
    if c = '{' then
      let g1 := l1.takeWhile (fun x => x ≠ '}')
      if g1 = [] then none
      else
        let rest1 := l1.drop g1.length
        if rest1.head? = some '}' ∧ rest1.tail.head? = some '.' then
          let l2 := rest1.tail.tail
          let g2 := l2.takeWhile isIdentHyphen
          if g2 = [] then none
          else some ((g1, g2), 1 + g1.length + 2 + g2.length)
        else none
    else none

/-- Position matcher for the STEP 2 patterns
`r'from\s+([a-zA-Z0-9_]+)\.([a-zA-Z0-9_\-]+)'` and
`r'join\s+([a-zA-Z0-9_]+)\.([a-zA-Z0-9_\-]+)'`
(src/data_lineage/generate_lineage.py lines 147-148), parameterised by
the keyword. -/
def matchKwDot (kw : List Char) (l : List Char) : Option ((List Char × List Char) × Nat) :=
  if startsWithCI kw l then
    let l1 := l.drop kw.length
    let s1 := (l1.takeWhile pyIsSpace).length
    if s1 = 0 then none
    else
      let l2 := l1.drop s1
      let g1 := l2.takeWhile isIdentChar
      if g1 = [] then none
      else
        match l2.drop g1.length with
        | '.' :: l3 =>
          let g2 := l3.takeWhile isIdentHyphen
          if g2 = [] then none
          else some ((g1, g2), kw.length + s1 + g1.length + 1 + g2.length)
        | _ => none
  else none

/-- The body of the STEP 2 match loop
(src/data_lineage/generate_lineage.py lines 153-168): skip tables that
are SQL functions or CTE names, otherwise add the formatted identifier
(brace-wrapped schema for the brace pattern, `schema.table` for the
from/join patterns). -/
def addRegexMatch (braced : Bool) (acc : Finset String) (m : List Char × List Char) : Finset String :=
  let table := String.mk m.2
  if sql_functions.contains table || is_cte_name table then acc
  else if braced then insert (String.mk ('{' :: m.1 ++ '}' :: '.' :: m.2)) acc
  else insert (String.mk (m.1 ++ '.' :: m.2)) acc

/-- STEP 2 of `extract_parent_tables`
(src/data_lineage/generate_lineage.py lines 140-168): the three regex
patterns are run over `sql_content.lower()` in order. -/
def regex_layer (sql : List Char) : Finset String :=
  let low := sql.map asciiLower
  let a1 := (scanMatches matchBrace low 0).foldl (addRegexMatch true) ∅
  let a2 := (scanMatches (matchKwDot "from".data) low 0).foldl (addRegexMatch false) a1
  (scanMatches (matchKwDot "join".data) low 0).foldl (addRegexMatch false) a2

/-- Model of `SQLLineageMapper.extract_parent_tables`
(src/data_lineage/generate_lineage.py lines 90-177): STEP 1 feeds the
transformed SQL to the external `sqllineage` parser (abstracted by
`primary`) and filters its source tables; when that leaves nothing —
parse failure included — STEP 2 falls back to the regex layer over the
original text. -/
def extract_parent_tables (primary : Option (List String)) (sql_content : String) : Finset String :=
  let parent_tables := step1_result primary sql_content.data
  if parent_tables = ∅ then regex_layer sql_content.data else parent_tables

/-- The target-table name `process_sql_files` derives from a file stem
(src/data_lineage/generate_lineage.py lines 249-250):
`f"{self.file_schema}.{table_name}" if self.file_schema else table_name`
— `some ""` is falsy in Python, hence bare. -/
def mkTarget (file_schema : Option String) (stem : String) : String :=
  let table_name := String.mk (stem.data.map asciiLower)
  match file_schema with
  | some fs => if fs = "" then table_name else fs ++ "." ++ table_name
  | none => table_name

/-- The relationships one file contributes in `process_sql_files`
(src/data_lineage/generate_lineage.py lines 248-257): each source table
of the content is paired with the target derived from the file stem. -/
def file_relationships (file_schema : Option String)
    (oracle : String → Option (List String)) (f : String × String) :
    Finset (String × String) :=
  (extract_parent_tables (oracle f.2) f.2).image
    (fun source => (source, mkTarget file_schema f.1))

/-- Model of `SQLLineageMapper.process_sql_files`
(src/data_lineage/generate_lineage.py lines 215-263) over a list of
(file stem, file content) pairs; `oracle` gives the `sqllineage` result
for each content (file discovery and read errors are outside the model:
contents are given). -/
def process_sql_files (file_schema : Option String)
    (oracle : String → Option (List String))
    (files : List (String × String)) : Finset (String × String) :=
  files.foldl
    (fun relationships f => relationships ∪ file_relationships file_schema oracle f)
    ∅

end GenerateLineage

namespace Lineage

open SqlWatchPup

/-- Position matcher for the CTE pattern
`r'(?:with|,)\s+([a-zA-Z0-9_]+)\s+as\s*\('` under `re.IGNORECASE`
(src/lineage_mapper/lineage.py line 36).  Returns the captured name and
the length of the match.  The character classes involved (`\s`,
`[a-zA-Z0-9_]`, the literals) are pairwise disjoint at every boundary,
so the greedy quantifiers never backtrack and the matcher below is the
regex's exact behaviour at one position. -/
def matchCte (l : List Char) : Option (List Char × Nat) :=
  let kw : Option Nat :=
    if startsWithCI "with".data l then some 4
    else if l.head? = some ',' then some 1
    else none
  match kw with
  | none => none
  | some k =>
    let l1 := l.drop k
    let s1 := (l1.takeWhile pyIsSpace).length
    if s1 = 0 then none
    else
      let l2 := l1.drop s1
      let nm := l2.takeWhile isIdentChar
      if nm = [] then none
      else
        let l3 := l2.drop nm.length
        let s2 := (l3.takeWhile pyIsSpace).length
        if s2 = 0 then none
        else
          let l4 := l3.drop s2
          if startsWithCI "as".data l4 then
            let l5 := l4.drop 2
            let s3 := (l5.takeWhile pyIsSpace).length
            if (l5.drop s3).head? = some '(' then
              some (nm, k + s1 + nm.length + s2 + 2 + s3 + 1)
            else none
          else none

/-- Tracking of the current line's prefix (reversed) while scanning, for
the per-match `sql_content[line_start:match.start()]` comment check. -/
def updLine (lineRev : List Char) (c : Char) : List Char :=
  if c = '\n' then [] else c :: lineRev

/-- The `re.finditer` scan of `extract_ctes`
(src/lineage_mapper/lineage.py lines 40-48) with the per-match check
that the text from the start of the match's line does not begin (after
`strip`) with `--`; accepted names are lower-cased.  The `Nat` skips the
remainder of the previous match. -/
def ctesScan : List Char → Nat → List Char → List (List Char)
  | [], _, _ => []
  | c :: rest, s + 1, lineRev => ctesScan rest s (updLine lineRev c)
  | c :: rest, 0, lineRev =>
    match matchCte (c :: rest) with
    | some (nm, n) =>
      let tail := ctesScan rest (n - 1) (updLine lineRev c)
      if startsWithL "--".data (pyStrip lineRev.reverse) then tail
      else nm.map asciiLower :: tail
    | none => ctesScan rest 0 (updLine lineRev c)

/-- Model of `SQLLineageMapper.extract_ctes` (src/lineage_mapper/lineage.py lines
33-50).  The Python set of names is modelled as a list used only through
membership. -/
def extract_ctes (s : String) : List String :=
  (ctesScan s.data 0 []).map String.mk

/-- Position matcher for the patterns
`r'from\s+(([a-zA-Z0-9_]+)\.)?([a-zA-Z0-9_]+)'` and
`r'join\s+(([a-zA-Z0-9_]+)\.)?([a-zA-Z0-9_]+)'` under `re.IGNORECASE`
(src/lineage_mapper/lineage.py lines 66 and 70).  The optional
`schema.` group matches exactly when the maximal identifier run is
followed by a dot and at least one further identifier character;
otherwise the regex backtracks to taking group 3 alone. -/
def matchKwTable (kw : List Char) (l : List Char) : Option ((Option (List Char) × List Char) × Nat) :=
  if startsWithCI kw l then
    let l1 := l.drop kw.length
    let s1 := (l1.takeWhile pyIsSpace).length
    if s1 = 0 then none
    else
      let l2 := l1.drop s1
      let r1 := l2.takeWhile isIdentChar
      if r1 = [] then none
      else
        match l2.drop r1.length with
        | '.' :: l3 =>
          let r2 := l3.takeWhile isIdentChar
          if r2 = [] then some ((none, r1), kw.length + s1 + r1.length)
          else some ((some r1, r2), kw.length + s1 + r1.length + 1 + r2.length)
        | _ => some ((none, r1), kw.length + s1 + r1.length)
  else none

/-- The line joining in `extract_parent_tables`
(src/lineage_mapper/lineage.py lines 60-63): lines whose stripped text
starts with `--` are removed and the rest joined with single spaces. -/
def joinedNoCommentLines (l : List Char) : List Char :=
  List.intercalate [' ']
    ((splitNl l).filter (fun line => !startsWithL "--".data (pyStrip line)))

/-- The body of the match loop of `extract_parent_tables`
(src/lineage_mapper/lineage.py lines 74-78): `match.group(3).lower()` is
added only if it is not a CTE name. -/
def addParent (ctes : List String) (acc : Finset String)
    (m : Option (List Char) × List Char) : Finset String :=
  let table_name := String.mk (m.2.map asciiLower)
  if table_name ∈ ctes then acc else insert table_name acc

/-- Model of `SQLLineageMapper.extract_parent_tables`
(src/lineage_mapper/lineage.py lines 52-80): collect group 3 of every
`from`/`join` match over the comment-line-filtered text, lower-cased,
excluding the CTE names of the unfiltered text. -/
def extract_parent_tables (s : String) : Finset String :=
  let ctes := extract_ctes s
  let joined := joinedNoCommentLines s.data
  let ms := scanMatches (matchKwTable "from".data) joined 0 ++
            scanMatches (matchKwTable "join".data) joined 0
  ms.foldl (addParent ctes) ∅

/-- Model of `SQLLineageMapper.process_sql_file`
(src/lineage_mapper/lineage.py lines 82-96): the relationships one file
contributes, each parent of the content paired with the file's
lower-cased stem. -/
def process_sql_file (f : String × String) : Finset (String × String) :=
  (extract_parent_tables f.2).image
    (fun parent => (parent, String.mk (f.1.data.map asciiLower)))

/-- Model of `SQLLineageMapper.build_lineage_map`
(src/lineage_mapper/lineage.py lines 98-104) over (file stem, content)
pairs. -/
def build_lineage_map (files : List (String × String)) : Finset (String × String) :=
  files.foldl (fun relationships f => relationships ∪ process_sql_file f) ∅

end Lineage

namespace DataQuality

open SqlWatchPup

/-- What a test needs from a query result: the scalar
`result.iloc[0].iloc[0]` (none when that lookup itself raises) and the
row count `len(result)`. -/
structure QueryResult where
  firstScalar : Option Int
  numRows : Nat

/-- A test's parameters from the YAML config (`{test_name: params}`):
a list of accepted values or a number.  `pyFalsy` is Python's truth
test `if not params`. -/
inductive Params where
  | plist (vs : List String)
  | pnum (n : Nat)
deriving DecidableEq

/-- Python falsiness of an optional parameter value. -/
def pyFalsy : Option Params → Bool
  | none => true
  | some (.plist vs) => vs.isEmpty
  | some (.pnum n) => n = 0

/-- Rendering of `{params}` into the `max_len` query string. -/
def paramStr : Params → String
  | .plist vs => toString vs
  | .pnum n => toString n

/-- The state of `DataQualityFramework` that the test runner uses
(src/data_quality/run_dq_tests.py): the one database connection (an
external `QueryExecutor`, modelled as a fallible query function), its
`default_schema`, the loaded custom tests, and the external Jinja
templating (`jinja2.Template(...).render(...)`, also fallible). -/
structure Framework where
  db : String → Except String QueryResult
  default_schema : String
  custom_tests : List (String × String)
  render : String → String → String → String → Except String String

/-- Model of `DataQualityFramework._parse_table_identifier`
(src/data_quality/run_dq_tests.py lines 328-333; the identical code is
at src/quality_checks/quality_check.py lines 179-184): split on dots;
exactly two parts give (schema, table), otherwise the connector's
default schema is paired with the first part. -/
def _parse_table_identifier (fw : Framework) (table_identifier : String) : String × String :=
  match splitDot table_identifier.data with
  | [a, b] => (String.mk a, String.mk b)
  | parts => (fw.default_schema, String.mk (parts.headD []))

/-- The built-in test names (src/data_quality/run_dq_tests.py line 598). -/
def builtin_tests : List String :=
  ["no_nulls", "unique", "accepted_values", "max_len"]

/-- The repeated `result = self.db.execute_query(query);
return int(result.iloc[0].iloc[0]) == 0` pattern of the built-in tests,
with the surrounding exception handler: a query error, or a result whose
scalar lookup raises, yields `false`. -/
def runScalarQuery (fw : Framework) (query : String) : Bool :=
  match fw.db query with
  | .error _ => false
  | .ok r =>
    match r.firstScalar with
    | none => false
    | some v => v = 0

/-- The `accepted_values` body: the comprehension
`[f"'{val}'" for val in params]` iterates the parameter list; a truthy
parameter of any non-list shape raises `TypeError`, which the
surrounding handler turns into `false`. -/
def acceptedValuesQuery (fw : Framework) (qualified_table column : String) :
    Option Params → Bool
  | some (.plist vs) =>
    runScalarQuery fw ("SELECT COUNT(*) as invalid_count FROM " ++ qualified_table ++
      " WHERE " ++ column ++ " NOT IN (" ++
      String.intercalate ", " (vs.map (fun v => "'" ++ v ++ "'")) ++ ") AND " ++
      column ++ " IS NOT NULL")
  | _ => false

/-- Model of `DataQualityFramework._run_default_test`
(src/data_quality/run_dq_tests.py lines 417-472): each built-in test
compiles to one aggregate query whose scalar must be 0; a query
exception, or a result on which the scalar lookup raises, is caught and
yields `false`; an unknown default test name logs a warning and yields
`false`.  The query texts reproduce the source's f-strings up to
whitespace layout (the source writes some of them as indented
multi-line strings). -/
def _run_default_test (fw : Framework) (schema table column test : String)
    (params : Option Params) : Bool :=
  let qualified_table := schema ++ "." ++ table
  if test = "no_nulls" then
    runScalarQuery fw ("SELECT COUNT(*) as null_count FROM " ++ qualified_table ++
         " WHERE " ++ column ++ " IS NULL")
  else if test = "unique" then
    runScalarQuery fw ("SELECT COUNT(*) as duplicate_count FROM (SELECT " ++ column ++
         " FROM " ++ qualified_table ++ " GROUP BY " ++ column ++
         " HAVING COUNT(*) > 1) t")
  else if test = "accepted_values" then
    if pyFalsy params then false
    else acceptedValuesQuery fw qualified_table column params
  else if test = "max_len" then
    if pyFalsy params then false
    else
      runScalarQuery fw ("SELECT COUNT(*) as oversize_count FROM " ++ qualified_table ++
           " WHERE LENGTH(CAST(" ++ column ++ " AS VARCHAR)) > " ++
           paramStr (params.getD (.pnum 0)))
  else false

/-- Model of `DataQualityFramework._run_custom_test`
(src/data_quality/run_dq_tests.py lines 395-415): an unknown custom test
name logs a warning and yields `false`; otherwise the template is
rendered and executed, the test passing iff the result has zero rows;
any exception (templating or query) is caught and yields `false`. -/
def _run_custom_test (fw : Framework) (schema table column test : String) : Bool :=
  match fw.custom_tests.lookup test with
  | none => false
  | some template =>
    match fw.render template schema table column with
    | .error _ => false
    | .ok query =>
      match fw.db query with
      | .error _ => false
      | .ok r => r.numRows = 0

/-- One test entry of a column's `tests` list: a bare name or a
`{name: params}` mapping. -/
inductive TestSpec where
  | plain (name : String)
  | withParams (name : String) (params : Params)
deriving DecidableEq

/-- The name of a test entry. -/
def specName : TestSpec → String
  | .plain n => n
  | .withParams n _ => n

/-- A column entry of a table config. -/
structure ColumnConfig where
  name : String
  tests : List TestSpec

/-- A table config entry (the value under a `schema.table` key). -/
structure TableConfig where
  columns : List ColumnConfig

/-- The test dispatch of `run_tests`
(src/data_quality/run_dq_tests.py lines 594-610): a name outside the
built-in list is routed to `_run_custom_test` (its params, if any, are
not passed on), a built-in one to `_run_default_test`. -/
def run_one (fw : Framework) (schema table column : String) : TestSpec → Bool
  | .plain test =>
    if builtin_tests.contains test then
      _run_default_test fw schema table column test none
    else _run_custom_test fw schema table column test
  | .withParams test_name test_params =>
    if builtin_tests.contains test_name then
      _run_default_test fw schema table column test_name (some test_params)
    else _run_custom_test fw schema table column test_name

/-- Observable events of a run: one `tested` record per executed test,
and the closing of the database connection. -/
inductive Action where
  | tested (qualified_table column test_name : String) (result : Bool)
  | closedConn
deriving DecidableEq

/-- The actions of the inner `for test in column_config.get('tests', [])`
loop for one column. -/
def column_actions (fw : Framework) (schema table qualified : String)
    (col : ColumnConfig) : List Action :=
  col.tests.map
    (fun t => Action.tested qualified col.name (specName t)
                (run_one fw schema table col.name t))

/-- The actions of one `table_identifier` iteration of `run_tests`. -/
def table_actions (fw : Framework) (tc : String × TableConfig) : List Action :=
  let st := _parse_table_identifier fw tc.1
  let qualified := st.1 ++ "." ++ st.2
  (tc.2.columns.map (column_actions fw st.1 st.2 qualified)).flatten

/-- Model of `DataQualityFramework.run_tests`
(src/data_quality/run_dq_tests.py lines 576-624; the same loop with the
same ending `self.db.close()` is src/quality_checks/quality_check.py
lines 383-427) as its sequence of observable actions: every configured
test is executed in order and the single database connection is closed
once, at the end, unconditionally. -/
def run_tests (fw : Framework) (table_configs : List (String × TableConfig)) : List Action :=
  (table_configs.map (table_actions fw)).flatten ++ [Action.closedConn]

/-- Whether an action is a test record. -/
def isTested : Action → Bool
  | .tested _ _ _ _ => true
  | .closedConn => false

/-- The number of tests a configuration declares. -/
def totalTests (table_configs : List (String × TableConfig)) : Nat :=
  (table_configs.map (fun tc => (tc.2.columns.map (fun c => c.tests.length)).sum)).sum

end DataQuality

namespace SqlWatchPup

/-- The claim-C1 SQL form up to its `ON `: texts of the claimed shape are
`sqlC1head ++ tail` for an arbitrary ON-clause tail. -/
def sqlC1head : String :=
  "SELECT * FROM schema1.table1 JOIN schema2.table2 ON "

/-- A text of the claim-C1 form with the given ON-clause tail. -/
def sqlC1form (tail : String) : String :=
  String.mk (sqlC1head.data ++ tail.data)

/-- The canonical instance of the claim-C1 SQL form
`SELECT * FROM schema1.table1 JOIN schema2.table2 ON ...` (it is also
the SQL of the repository's own unit test
`test_extract_parent_tables_basic`). -/
def sqlC1 : String :=
  "SELECT * FROM schema1.table1 JOIN schema2.table2 ON table1.id = table2.id"

/-- The two files of claim C5: `a.sql` reading `raw.input` and `b.sql`
reading the unqualified name `a`. -/
def filesC5 : List (String × String) :=
  [("a", "SELECT * FROM raw.input"), ("b", "SELECT * FROM a")]

end SqlWatchPup

namespace GenerateLineage

open SqlWatchPup

/-- Occurrence of the two characters `--` somewhere in the text. -/
def hasDD : List Char → Bool
  | c :: c2 :: rest => (c = '-' ∧ c2 = '-') || hasDD (c2 :: rest)
  | _ => false

/-- Occurrence of the two characters `*/` somewhere in the text. -/
def hasClose : List Char → Bool
  | c :: c2 :: rest => (c = '*' ∧ c2 = '/') || hasClose (c2 :: rest)
  | _ => false

/-- No block-comment opener `/*` is followed (two or more characters
later) by a closer `*/`; texts with this property are exactly the
fixpoints of the block-comment stripper.  (Checking the first opener
suffices: when no `*/` follows it, none follows any later opener
either.) -/
def goodB : List Char → Bool
  | c :: c2 :: rest => if c = '/' ∧ c2 = '*' then !hasClose rest else goodB (c2 :: rest)
  | _ => true

end GenerateLineage

namespace GenerateLineage

open SqlWatchPup

theorem findClose_eq_none_iff (l : List Char) : findClose l = none ↔ hasClose l = false := by
  induction l with
  | nil => simp [findClose, hasClose]
  | cons c rest ih =>
    cases rest with
    | nil => simp [findClose, hasClose]
    | cons c2 r2 =>
      by_cases h : c = '*' ∧ c2 = '/'
      · simp [findClose, hasClose, h]
      · simp [findClose, hasClose, h, ih]

theorem hasClose_tail (c : Char) (l : List Char) (h : hasClose (c :: l) = false) :
    hasClose l = false := by
  cases l with
  | nil => simp [hasClose]
  | cons c2 r2 => simp [hasClose] at h; exact h.2

theorem goodB_of_hasClose_false (l : List Char) (h : hasClose l = false) : goodB l = true := by
  induction l with
  | nil => simp [goodB]
  | cons c rest ih =>
    cases rest with
    | nil => simp [goodB]
    | cons c2 r2 =>
      simp only [hasClose, Bool.or_eq_false_iff] at h
      by_cases hc : c = '/' ∧ c2 = '*'
      · simp [goodB, hc, hasClose_tail c2 r2 h.2]
      · simp only [goodB, if_neg hc]
        exact ih h.2

theorem goodB_tail (c : Char) (l : List Char) (h : goodB (c :: l) = true) : goodB l = true := by
  cases l with
  | nil => simp [goodB]
  | cons c2 r2 =>
    by_cases hc : c = '/' ∧ c2 = '*'
    · simp only [goodB, if_pos hc, Bool.not_eq_true'] at h
      have h2 : goodB r2 = true := goodB_of_hasClose_false r2 h
      cases r2 with
      | nil => simp [goodB]
      | cons c3 r3 =>
        have hne : ¬(c2 = '/' ∧ c3 = '*') := by rw [hc.2]; simp
        simpa [goodB, if_neg hne] using h2
    · simpa [goodB, if_neg hc] using h


theorem stripBlockAux_skip (s : Nat) (l : List Char) :
    stripBlockAux l s = stripBlockAux (l.drop s) 0 := by
  induction l generalizing s with
  | nil => cases s <;> rfl
  | cons c rest ih =>
    cases s with
    | zero => rfl
    | succ s => simpa [stripBlockAux] using ih s

theorem stripBlockAux_head (c : Char) (r : List Char) :
    (stripBlockAux (c :: r) 0).head? = some c ∨ (stripBlockAux (c :: r) 0).head? = some ' ' := by
  cases r with
  | nil => left; rfl
  | cons c2 r2 =>
    by_cases hc : c = '/' ∧ c2 = '*'
    · cases hfc : findClose r2 with
      | none => left; simp [stripBlockAux, hc, hfc]
      | some j => right; simp [stripBlockAux, hc, hfc]
    · left; simp [stripBlockAux, hc]

theorem goodB_cons_of_head (c : Char) (X : List Char) (h : goodB X = true)
    (hh : c ≠ '/' ∨ X.head? ≠ some '*') : goodB (c :: X) = true := by
  cases X with
  | nil => simp [goodB]
  | cons x1 X2 =>
    have hne : ¬(c = '/' ∧ x1 = '*') := by
      rcases hh with h1 | h1
      · rintro ⟨ha, _⟩; exact h1 ha
      · rintro ⟨_, hb⟩; exact h1 (by simp [hb])
    simpa [goodB, if_neg hne] using h

theorem goodB_stripBlockAux : ∀ n l, List.length l ≤ n → goodB (stripBlockAux l 0) = true := by
  intro n
  induction n with
  | zero =>
    intro l hl
    have he : l = [] := List.length_eq_zero.mp (Nat.le_zero.mp hl)
    subst he; rfl
  | succ n ih =>
    intro l hl
    cases l with
    | nil => rfl
    | cons c rest =>
      cases rest with
      | nil => simp [stripBlockAux, goodB]
      | cons c2 r2 =>
        by_cases hc : c = '/' ∧ c2 = '*'
        · cases hfc : findClose r2 with
          | none =>
            have : hasClose r2 = false := (findClose_eq_none_iff r2).mp hfc
            simp [stripBlockAux, hc, hfc, goodB, this]
          | some j =>
            have hlen : List.length (r2.drop (j + 2)) ≤ n := by
              simp only [List.length_cons] at hl
              rw [List.length_drop]
              omega
            have hg := ih (r2.drop (j + 2)) hlen
            have heq : stripBlockAux (c :: c2 :: r2) 0 = ' ' :: stripBlockAux (r2.drop (j + 2)) 0 := by
              simp [stripBlockAux, hc, hfc, stripBlockAux_skip]
            rw [heq]
            exact goodB_cons_of_head _ _ hg (Or.inl (by decide))
        · have hg := ih (c2 :: r2) (by simp only [List.length_cons] at hl ⊢; omega)
          have heq : stripBlockAux (c :: c2 :: r2) 0 = c :: stripBlockAux (c2 :: r2) 0 := by
            simp [stripBlockAux, hc]
          rw [heq]
          by_cases hcs : c = '/'
          · refine goodB_cons_of_head _ _ hg (Or.inr ?_)
            have h2 : c2 ≠ '*' := fun hx => hc ⟨hcs, hx⟩
            rcases stripBlockAux_head c2 r2 with hh | hh <;> rw [hh] <;> simp_all
          · exact goodB_cons_of_head _ _ hg (Or.inl hcs)

theorem stripBlockAux_of_goodB : ∀ n l, List.length l ≤ n → goodB l = true → stripBlockAux l 0 = l := by
  intro n
  induction n with
  | zero =>
    intro l hl _
    have he : l = [] := List.length_eq_zero.mp (Nat.le_zero.mp hl)
    subst he; rfl
  | succ n ih =>
    intro l hl hg
    cases l with
    | nil => rfl
    | cons c rest =>
      cases rest with
      | nil => rfl
      | cons c2 r2 =>
        by_cases hc : c = '/' ∧ c2 = '*'
        · have hcl : hasClose r2 = false := by
            simpa [goodB, if_pos hc, Bool.not_eq_true'] using hg
          have : findClose r2 = none := (findClose_eq_none_iff r2).mpr hcl
          simp [stripBlockAux, hc, this]
        · have hg2 : goodB (c2 :: r2) = true := by
            simpa [goodB, if_neg hc] using hg
          have := ih (c2 :: r2) (by simp only [List.length_cons] at hl ⊢; omega) hg2
          simp [stripBlockAux, hc, this]


theorem hasDD_tail (c : Char) (l : List Char) (h : hasDD (c :: l) = false) :
    hasDD l = false := by
  cases l with
  | nil => rfl
  | cons c2 r2 => simp [hasDD] at h; exact h.2

theorem stripLineAux_true_head (l : List Char) :
    (stripLineAux l true).head? = some '\n' ∨ (stripLineAux l true).head? = none := by
  induction l with
  | nil => right; rfl
  | cons c rest ih =>
    by_cases hc : c = '\n'
    · left; simp [stripLineAux, hc]
    · simpa [stripLineAux, hc] using ih

theorem stripLineAux_false_head (c : Char) (r : List Char) :
    (stripLineAux (c :: r) false).head? = some c ∨
      (stripLineAux (c :: r) false).head? = some '\n' ∨
      (stripLineAux (c :: r) false).head? = none := by
  cases r with
  | nil => left; rfl
  | cons c2 r2 =>
    by_cases hc : c = '-' ∧ c2 = '-'
    · have := stripLineAux_true_head r2
      rcases this with h | h
      · right; left; simpa [stripLineAux, hc] using h
      · right; right; simpa [stripLineAux, hc] using h
    · left; simp [stripLineAux, hc]

theorem hasDD_stripLineAux : ∀ n l b, List.length l ≤ n → hasDD (stripLineAux l b) = false := by
  intro n
  induction n with
  | zero =>
    intro l b hl
    have he : l = [] := List.length_eq_zero.mp (Nat.le_zero.mp hl)
    subst he; cases b <;> rfl
  | succ n ih =>
    intro l b hl
    cases l with
    | nil => cases b <;> rfl
    | cons c rest =>
      have hr : List.length rest ≤ n := by simp only [List.length_cons] at hl; omega
      cases b with
      | true =>
        by_cases hc : c = '\n'
        · have hx := ih rest false hr
          have heq : stripLineAux (c :: rest) true = '\n' :: stripLineAux rest false := by
            simp [stripLineAux, hc]
          rw [heq]
          cases hsf : stripLineAux rest false with
          | nil => rfl
          | cons x1 X2 => rw [hsf] at hx; simpa [hasDD] using hx
        · simpa [stripLineAux, hc] using ih rest true hr
      | false =>
        cases rest with
        | nil => rfl
        | cons c2 r2 =>
          have hr2 : List.length r2 ≤ n := by simp only [List.length_cons] at hl; omega
          by_cases hc : c = '-' ∧ c2 = '-'
          · simpa [stripLineAux, hc] using ih r2 true hr2
          · have hx := ih (c2 :: r2) false hr
            have heq : stripLineAux (c :: c2 :: r2) false = c :: stripLineAux (c2 :: r2) false := by
              simp [stripLineAux, hc]
            rw [heq]
            by_cases hcd : c = '-'
            · have h2 : c2 ≠ '-' := fun hx2 => hc ⟨hcd, hx2⟩
              rcases stripLineAux_false_head c2 r2 with hh | hh | hh <;>
                cases hsf : stripLineAux (c2 :: r2) false with
                | nil => rfl
                | cons x1 X2 =>
                  rw [hsf] at hh hx
                  simp only [List.head?_cons, Option.some_inj] at hh
                  simp [hasDD, hh] at hx ⊢
                  first
                  | exact ⟨fun h => (h2 (hh ▸ h)).elim, hx⟩
                  | simp_all [hasDD]
            · cases hsf : stripLineAux (c2 :: r2) false with
              | nil => rfl
              | cons x1 X2 =>
                rw [hsf] at hx
                simp [hasDD, hcd] at hx ⊢
                exact hx

theorem stripLineAux_of_hasDD_false : ∀ n l, List.length l ≤ n → hasDD l = false →
    stripLineAux l false = l := by
  intro n
  induction n with
  | zero =>
    intro l hl _
    have he : l = [] := List.length_eq_zero.mp (Nat.le_zero.mp hl)
    subst he; rfl
  | succ n ih =>
    intro l hl hdd
    cases l with
    | nil => rfl
    | cons c rest =>
      cases rest with
      | nil => rfl
      | cons c2 r2 =>
        have hc : ¬(c = '-' ∧ c2 = '-') := by
          intro hx
          simp [hasDD, hx] at hdd
        have hdd2 : hasDD (c2 :: r2) = false := hasDD_tail c _ hdd
        have := ih (c2 :: r2) (by simp only [List.length_cons] at hl ⊢; omega) hdd2
        simp [stripLineAux, hc, this]


theorem hasClose_stripLineAux : ∀ n l b, List.length l ≤ n → hasClose l = false →
    hasClose (stripLineAux l b) = false := by
  intro n
  induction n with
  | zero =>
    intro l b hl _
    have he : l = [] := List.length_eq_zero.mp (Nat.le_zero.mp hl)
    subst he; cases b <;> rfl
  | succ n ih =>
    intro l b hl hcl
    cases l with
    | nil => cases b <;> rfl
    | cons c rest =>
      have hr : List.length rest ≤ n := by simp only [List.length_cons] at hl; omega
      have hclr : hasClose rest = false := hasClose_tail c rest hcl
      cases b with
      | true =>
        by_cases hc : c = '\n'
        · have hx := ih rest false hr hclr
          have heq : stripLineAux (c :: rest) true = '\n' :: stripLineAux rest false := by
            simp [stripLineAux, hc]
          rw [heq]
          cases hsf : stripLineAux rest false with
          | nil => rfl
          | cons x1 X2 => rw [hsf] at hx; simpa [hasClose] using hx
        · simpa [stripLineAux, hc] using ih rest true hr hclr
      | false =>
        cases rest with
        | nil => rfl
        | cons c2 r2 =>
          have hr2 : List.length r2 ≤ n := by simp only [List.length_cons] at hl; omega
          have hclr2 : hasClose r2 = false := hasClose_tail c2 r2 hclr
          by_cases hc : c = '-' ∧ c2 = '-'
          · simpa [stripLineAux, hc] using ih r2 true hr2 hclr2
          · have hx := ih (c2 :: r2) false hr hclr
            have heq : stripLineAux (c :: c2 :: r2) false = c :: stripLineAux (c2 :: r2) false := by
              simp [stripLineAux, hc]
            rw [heq]
            have hns : ¬(c = '*' ∧ c2 = '/') := by
              intro hx2
              simp [hasClose, hx2] at hcl
            cases hsf : stripLineAux (c2 :: r2) false with
            | nil => rfl
            | cons x1 X2 =>
              rw [hsf] at hx
              have hx1 : x1 = c2 ∨ x1 = '\n' := by
                rcases stripLineAux_false_head c2 r2 with hh | hh | hh <;>
                  rw [hsf] at hh <;> simp only [List.head?_cons, Option.some_inj] at hh
                · left; exact hh
                · right; exact hh
                · exact absurd hh (by simp)
              have hne : ¬(c = '*' ∧ x1 = '/') := by
                rintro ⟨ha, hb⟩
                rcases hx1 with h1 | h1
                · exact hns ⟨ha, h1 ▸ hb⟩
                · rw [h1] at hb; exact absurd hb (by decide)
              simpa [hasClose, if_neg hne, hne] using hx

theorem goodB_stripLineAux : ∀ n l b, List.length l ≤ n → goodB l = true →
    goodB (stripLineAux l b) = true := by
  intro n
  induction n with
  | zero =>
    intro l b hl _
    have he : l = [] := List.length_eq_zero.mp (Nat.le_zero.mp hl)
    subst he; cases b <;> rfl
  | succ n ih =>
    intro l b hl hg
    cases l with
    | nil => cases b <;> rfl
    | cons c rest =>
      have hr : List.length rest ≤ n := by simp only [List.length_cons] at hl; omega
      have hgr : goodB rest = true := goodB_tail c rest hg
      cases b with
      | true =>
        by_cases hc : c = '\n'
        · have hx := ih rest false hr hgr
          have heq : stripLineAux (c :: rest) true = '\n' :: stripLineAux rest false := by
            simp [stripLineAux, hc]
          rw [heq]
          exact goodB_cons_of_head _ _ hx (Or.inl (by decide))
        · simpa [stripLineAux, hc] using ih rest true hr hgr
      | false =>
        cases rest with
        | nil => rfl
        | cons c2 r2 =>
          have hr2 : List.length r2 ≤ n := by simp only [List.length_cons] at hl; omega
          by_cases hc : c = '-' ∧ c2 = '-'
          · have hgr2 : goodB r2 = true := goodB_tail c2 r2 hgr
            simpa [stripLineAux, hc] using ih r2 true hr2 hgr2
          · have hx := ih (c2 :: r2) false hr hgr
            have heq : stripLineAux (c :: c2 :: r2) false = c :: stripLineAux (c2 :: r2) false := by
              simp [stripLineAux, hc]
            rw [heq]
            by_cases hcs : c = '/'
            · by_cases hc2 : c2 = '*'
              · have hcl : hasClose r2 = false := by
                  simpa [goodB, if_pos (And.intro hcs hc2), Bool.not_eq_true'] using hg
                subst hcs; subst hc2
                cases r2 with
                | nil => simp [stripLineAux, goodB, hasClose]
                | cons c3 r3 =>
                  have hne : ¬('*' = '-' ∧ c3 = '-') := by simp
                  have heq2 : stripLineAux ('*' :: c3 :: r3) false =
                      '*' :: stripLineAux (c3 :: r3) false := by
                    simp [stripLineAux, hne]
                  rw [heq2]
                  have hy : hasClose (stripLineAux (c3 :: r3) false) = false :=
                    hasClose_stripLineAux n (c3 :: r3) false hr2 hcl
                  simp [goodB, hy]
              · refine goodB_cons_of_head _ _ hx (Or.inr ?_)
                rcases stripLineAux_false_head c2 r2 with hh | hh | hh <;> rw [hh] <;> simp_all
            · exact goodB_cons_of_head _ _ hx (Or.inl hcs)


/-- C6: the comment stripper is idempotent: for every SQL text `s`,
`remove_comments (remove_comments s) = remove_comments s` — a second
application produces no observable change. -/
theorem claim_c6 : ∀ s : String, remove_comments (remove_comments s) = remove_comments s := by
  intro s
  set t := stripLineAux (stripBlockAux s.data 0) false with ht
  have hgoodB : goodB t = true := by
    rw [ht]
    exact goodB_stripLineAux _ _ false le_rfl
      (goodB_stripBlockAux (List.length s.data) s.data le_rfl)
  have hdd : hasDD t = false := by
    rw [ht]
    exact hasDD_stripLineAux _ _ false le_rfl
  have hB : stripBlockAux t 0 = t := stripBlockAux_of_goodB (List.length t) t le_rfl hgoodB
  have hL : stripLineAux t false = t := stripLineAux_of_hasDD_false (List.length t) t le_rfl hdd
  show String.mk (stripLineAux (stripBlockAux t 0) false) = String.mk t
  rw [hB, hL]

end GenerateLineage

namespace SqlWatchPup

/-- Membership in a fold that unions a per-element contribution. -/
theorem mem_foldl_union {α β : Type} [DecidableEq β] (g : α → Finset β) :
    ∀ (L : List α) (init : Finset β) (x : β),
      x ∈ L.foldl (fun acc a => acc ∪ g a) init ↔ x ∈ init ∨ ∃ a ∈ L, x ∈ g a := by
  intro L
  induction L with
  | nil => simp
  | cons a L ih =>
    intro init x
    simp only [List.foldl_cons, ih, Finset.mem_union, List.mem_cons]
    constructor
    · rintro (⟨h | h⟩ | ⟨b, hb, hx⟩)
      · exact Or.inl h
      · exact Or.inr ⟨a, Or.inl rfl, h⟩
      · exact Or.inr ⟨b, Or.inr hb, hx⟩
    · rintro (h | ⟨b, hb | hb, hx⟩)
      · exact Or.inl (Or.inl h)
      · subst hb; exact Or.inl (Or.inr hx)
      · exact Or.inr ⟨b, hb, hx⟩

end SqlWatchPup

namespace GenerateLineage

open SqlWatchPup

theorem mem_step1_tables_dot (sql : List Char) :
    ∀ (ts : List String) (acc : Finset String) (x : String),
      x ∈ step1_tables sql ts acc → x ∈ acc ∨ '.' ∈ x.data := by
  intro ts
  induction ts with
  | nil => intro acc x hx; exact Or.inl hx
  | cons t ts ih =>
    intro acc x hx
    simp only [step1_tables] at hx
    split at hx
    · exact ih _ _ hx
    · split at hx
      · exact ih _ _ hx
      · split at hx
        · split at hx
          · split at hx
            · rcases ih _ _ hx with h | h
              · rcases Finset.mem_insert.mp h with h | h
                · subst h
                  right
                  simp
                · exact Or.inl h
              · exact Or.inr h
            · exact Or.inl hx
          · rcases ih _ _ hx with h | h
            · rcases Finset.mem_insert.mp h with h | h
              · subst h
                right
                rename_i hdot _
                simpa using hdot
              · exact Or.inl h
            · exact Or.inr h
        · exact ih _ _ hx


theorem mem_addRegexMatch_foldl_dot (braced : Bool) :
    ∀ (ms : List (List Char × List Char)) (acc : Finset String) (x : String),
      x ∈ ms.foldl (addRegexMatch braced) acc → x ∈ acc ∨ '.' ∈ x.data := by
  intro ms
  induction ms with
  | nil => intro acc x hx; exact Or.inl hx
  | cons m ms ih =>
    intro acc x hx
    simp only [List.foldl_cons] at hx
    rcases ih _ _ hx with h | h
    · simp only [addRegexMatch] at h
      split at h
      · exact Or.inl h
      · split at h
        · rcases Finset.mem_insert.mp h with h | h
          · subst h; right; simp
          · exact Or.inl h
        · rcases Finset.mem_insert.mp h with h | h
          · subst h; right; simp
          · exact Or.inl h
    · exact Or.inr h

theorem mem_regex_layer_dot (sql : List Char) (x : String)
    (hx : x ∈ regex_layer sql) : '.' ∈ x.data := by
  simp only [regex_layer] at hx
  rcases mem_addRegexMatch_foldl_dot false _ _ _ hx with h | h
  · rcases mem_addRegexMatch_foldl_dot false _ _ _ h with h2 | h2
    · rcases mem_addRegexMatch_foldl_dot true _ _ _ h2 with h3 | h3
      · simp at h3
      · exact h3
    · exact h2
  · exact h

theorem mem_extract_parent_tables_dot (primary : Option (List String)) (sql : String)
    (x : String) (hx : x ∈ extract_parent_tables primary sql) : '.' ∈ x.data := by
  simp only [extract_parent_tables] at hx
  split at hx
  · exact mem_regex_layer_dot _ _ hx
  · cases primary with
    | none => simp [step1_result] at hx
    | some ts =>
      rcases mem_step1_tables_dot sql.data ts ∅ x hx with h | h
      · simp at h
      · exact h

/-- C9: every identifier the advanced extractor returns is qualified — it
contains a dot (separating the, possibly brace-wrapped, schema part from
the table part); a bare dot-free table name is never an element of the
result, for any input SQL text and any behaviour of the structured-parse
layer. -/
theorem claim_c9 : ∀ (primary : Option (List String)) (sql : String) (x : String),
    x ∈ extract_parent_tables primary sql → '.' ∈ x.data :=
  fun primary sql x hx => mem_extract_parent_tables_dot primary sql x hx

/-- C9 witness: at the canonical input the returned identifier
`schema1.table1` indeed carries its dot. -/
theorem claim_c9_witness :
    '.' ∈ ("schema1.table1" : String).data :=
  claim_c9 none sqlC1 "schema1.table1" (by decide)

/-- C3: the advanced extractor never raises: a failing structured-parse
layer (`primary = none` models the caught `sqllineage` exception) falls
through to the regex layer, and when both layers yield nothing the
extractor returns the empty set rather than an error. -/
theorem claim_c3 :
    (∀ sql : String, extract_parent_tables none sql = regex_layer sql.data) ∧
    (∀ (primary : Option (List String)) (sql : String),
      step1_result primary sql.data = ∅ → regex_layer sql.data = ∅ →
      extract_parent_tables primary sql = ∅) := by
  constructor
  · intro sql
    simp [extract_parent_tables, step1_result]
  · intro primary sql h1 h2
    simp [extract_parent_tables, h1, h2]

/-- C3 witness: on the one-character SQL text `x` (no matches anywhere)
the extractor returns the empty set. -/
theorem claim_c3_witness : extract_parent_tables none "x" = ∅ :=
  claim_c3.2 none "x" (by decide) (by decide)

end GenerateLineage

namespace SqlWatchPup

theorem toNat_ofNat_of_valid (n : Nat) (h : n.isValidChar) : (Char.ofNat n).toNat = n := by
  rw [Char.ofNat, dif_pos h]
  rfl

theorem toLower_toNat_not_upper (c : Char) :
    ¬(65 ≤ c.toLower.toNat ∧ c.toLower.toNat ≤ 90) := by
  rw [Char.toLower]
  split
  · rename_i h
    have hv : (c.toNat + 32).isValidChar := by left; omega
    rw [toNat_ofNat_of_valid _ hv]
    omega
  · rename_i h
    omega

theorem asciiLower_idem (c : Char) : asciiLower (asciiLower c) = asciiLower c := by
  show c.toLower.toLower = c.toLower
  conv_lhs => rw [Char.toLower]
  rw [if_neg (toLower_toNat_not_upper c)]

theorem startsWithCI_map_asciiLower (pat : List Char) :
    ∀ l : List Char, startsWithCI pat (l.map asciiLower) = startsWithCI pat l := by
  induction pat with
  | nil => intro l; rfl
  | cons p ps ih =>
    intro l
    cases l with
    | nil => rfl
    | cons c rest =>
      simp only [List.map_cons, startsWithCI, asciiLower_idem, ih]

theorem containsSubCI_map_asciiLower (pat : List Char) :
    ∀ l : List Char, containsSubCI pat (l.map asciiLower) = containsSubCI pat l := by
  intro l
  induction l with
  | nil => rfl
  | cons c rest ih =>
    simp only [List.map_cons, containsSubCI, ih, ← List.map_cons,
      startsWithCI_map_asciiLower]

theorem asciiLower_eq_brace_iff (c : Char) : asciiLower c = '{' ↔ c = '{' := by
  constructor
  · intro h
    rw [asciiLower, Char.toLower] at h
    split at h
    · rename_i hr
      have hv : (c.toNat + 32).isValidChar := by left; omega
      have h2 := congrArg Char.toNat h
      rw [toNat_ofNat_of_valid _ hv] at h2
      have : ('{').toNat = 123 := rfl
      omega
    · exact h
  · intro h
    subst h
    rfl

theorem brace_mem_map_asciiLower (l : List Char) : '{' ∈ l.map asciiLower ↔ '{' ∈ l := by
  rw [List.mem_map]
  constructor
  · rintro ⟨c, hc, he⟩
    rw [asciiLower_eq_brace_iff] at he
    exact he ▸ hc
  · intro h
    exact ⟨'{', h, rfl⟩

end SqlWatchPup

namespace GenerateLineage

open SqlWatchPup

theorem matchKwDot_none (kw l : List Char) (h : startsWithCI kw l = false) :
    matchKwDot kw l = none := by
  simp [matchKwDot, h]

theorem scanKwDot_nil (kw : List Char) :
    ∀ (l : List Char) (s : Nat), containsSubCI kw l = false →
      scanMatches (matchKwDot kw) l s = [] := by
  intro l
  induction l with
  | nil => intro s _; cases s <;> rfl
  | cons c rest ih =>
    intro s h
    simp only [containsSubCI, Bool.or_eq_false_iff] at h
    cases s with
    | zero =>
      rw [scanMatches, matchKwDot_none kw _ h.1]
      exact ih 0 h.2
    | succ s =>
      rw [scanMatches]
      exact ih s h.2

theorem matchBrace_none (c : Char) (l1 : List Char) (hc : c ≠ '{') :
    matchBrace (c :: l1) = none := by
  simp [matchBrace, hc]

theorem scanBrace_nil :
    ∀ (l : List Char) (s : Nat), '{' ∉ l → scanMatches matchBrace l s = [] := by
  intro l
  induction l with
  | nil => intro s _; cases s <;> rfl
  | cons c rest ih =>
    intro s h
    have hc : c ≠ '{' := fun hx => h (hx ▸ List.mem_cons_self c rest)
    have hr : '{' ∉ rest := fun hx => h (List.mem_cons_of_mem c hx)
    cases s with
    | zero =>
      rw [scanMatches, matchBrace_none c rest hc]
      exact ih 0 hr
    | succ s =>
      rw [scanMatches]
      exact ih s hr

theorem map_asciiLower_sqlC1head :
    sqlC1head.data.map asciiLower =
      "select * from schema1.table1 join schema2.table2 on ".data := by decide

set_option maxHeartbeats 4000000 in
theorem scan_from_sqlC1head (r : List Char) :
    scanMatches (matchKwDot "from".data)
      ("select * from schema1.table1 join schema2.table2 on ".data ++ r) 0 =
    ("schema1".data, "table1".data) :: scanMatches (matchKwDot "from".data) r 0 := rfl

set_option maxHeartbeats 4000000 in
theorem scan_join_sqlC1head (r : List Char) :
    scanMatches (matchKwDot "join".data)
      ("select * from schema1.table1 join schema2.table2 on ".data ++ r) 0 =
    ("schema2".data, "table2".data) :: scanMatches (matchKwDot "join".data) r 0 := rfl

set_option maxHeartbeats 4000000 in
theorem scan_brace_sqlC1head (r : List Char) :
    scanMatches matchBrace
      ("select * from schema1.table1 join schema2.table2 on ".data ++ r) 0 =
    scanMatches matchBrace r 0 := rfl

theorem regex_layer_sqlC1_form (tail : String)
    (hfrom : containsSubCI "from".data tail.data = false)
    (hjoin : containsSubCI "join".data tail.data = false)
    (hbrace : '{' ∉ tail.data) :
    regex_layer (sqlC1head.data ++ tail.data) =
      {"schema1.table1", "schema2.table2"} := by
  have hlow : (sqlC1head.data ++ tail.data).map asciiLower =
      "select * from schema1.table1 join schema2.table2 on ".data ++
        tail.data.map asciiLower := by
    rw [List.map_append, map_asciiLower_sqlC1head]
  have hfrom2 : containsSubCI "from".data (tail.data.map asciiLower) = false := by
    rw [containsSubCI_map_asciiLower]; exact hfrom
  have hjoin2 : containsSubCI "join".data (tail.data.map asciiLower) = false := by
    rw [containsSubCI_map_asciiLower]; exact hjoin
  have hbrace2 : '{' ∉ tail.data.map asciiLower := by
    rw [brace_mem_map_asciiLower]; exact hbrace
  rw [regex_layer]
  rw [hlow, scan_from_sqlC1head, scan_join_sqlC1head, scan_brace_sqlC1head]
  rw [scanKwDot_nil _ _ _ hfrom2, scanKwDot_nil _ _ _ hjoin2, scanBrace_nil _ _ hbrace2]
  decide

end GenerateLineage


/-- C4: every relationship either pipeline adds has its target derived
deterministically from the owning file's stem — lower-cased, prefixed
with the configured `file_schema` and a dot when a (truthy) schema
template is configured, bare otherwise (the simple pipeline has no
schema template and always uses the bare stem) — and its source drawn
from the content analysis of that same file. -/
theorem claim_c4 :
    (∀ (file_schema : Option String) (oracle : String → Option (List String))
       (files : List (String × String)) (src tgt : String),
      (src, tgt) ∈ GenerateLineage.process_sql_files file_schema oracle files →
      ∃ f ∈ files, tgt = GenerateLineage.mkTarget file_schema f.1 ∧
        src ∈ GenerateLineage.extract_parent_tables (oracle f.2) f.2) ∧
    (∀ (files : List (String × String)) (src tgt : String),
      (src, tgt) ∈ Lineage.build_lineage_map files →
      ∃ f ∈ files, tgt = String.mk (f.1.data.map SqlWatchPup.asciiLower) ∧
        src ∈ Lineage.extract_parent_tables f.2) := by
  constructor
  · intro file_schema oracle files src tgt h
    rw [GenerateLineage.process_sql_files,
      SqlWatchPup.mem_foldl_union (GenerateLineage.file_relationships file_schema oracle)] at h
    rcases h with h | ⟨f, hf, hx⟩
    · simp at h
    · refine ⟨f, hf, ?_⟩
      rw [GenerateLineage.file_relationships, Finset.mem_image] at hx
      rcases hx with ⟨source, hs, he⟩
      rcases Prod.mk.injEq .. ▸ he with ⟨h1, h2⟩
      exact ⟨h2.symm, h1 ▸ hs⟩
  · intro files src tgt h
    rw [Lineage.build_lineage_map, SqlWatchPup.mem_foldl_union Lineage.process_sql_file] at h
    rcases h with h | ⟨f, hf, hx⟩
    · simp at h
    · refine ⟨f, hf, ?_⟩
      rw [Lineage.process_sql_file, Finset.mem_image] at hx
      rcases hx with ⟨source, hs, he⟩
      rcases Prod.mk.injEq .. ▸ he with ⟨h1, h2⟩
      exact ⟨h2.symm, h1 ▸ hs⟩

/-- C4 witness: the one relationship of a one-file run is traced back to
its file. -/
theorem claim_c4_witness :
    ∃ f ∈ [(("a" : String), ("SELECT * FROM raw.input" : String))],
      ("a" : String) = GenerateLineage.mkTarget none f.1 ∧
        ("raw.input" : String) ∈ GenerateLineage.extract_parent_tables none f.2 := by
  have h := claim_c4.1 none (fun _ => none) [("a", "SELECT * FROM raw.input")]
    "raw.input" "a" (by decide)
  rcases h with ⟨f, hf, h1, h2⟩
  exact ⟨f, hf, h1, by simpa using h2⟩

namespace Lineage

open SqlWatchPup

/-- The CTE matcher fails at a position that neither starts with `with`
(case-insensitively) nor with a comma. -/
theorem matchCte_none_of_no_kw (l : List Char)
    (h1 : startsWithCI "with".data l = false) (h2 : l.head? ≠ some ',') :
    matchCte l = none := by
  simp [matchCte, h1, h2]

/-- Text containing no `with` occurrence and no comma yields no CTE
match at any position. -/
theorem ctesScan_nil :
    ∀ (l : List Char) (s : Nat) (lineRev : List Char),
      containsSubCI "with".data l = false → ',' ∉ l →
      ctesScan l s lineRev = [] := by
  intro l
  induction l with
  | nil => intro s lineRev _ _; cases s <;> rfl
  | cons c rest ih =>
    intro s lineRev hw hc
    simp only [containsSubCI, Bool.or_eq_false_iff] at hw
    have hcc : c ≠ ',' := fun hx => hc (hx ▸ List.mem_cons_self c rest)
    have hcr : ',' ∉ rest := fun hx => hc (List.mem_cons_of_mem c hx)
    cases s with
    | zero =>
      rw [ctesScan, matchCte_none_of_no_kw _ hw.1 (by simp [hcc])]
      exact ih 0 _ hw.2 hcr
    | succ s =>
      rw [ctesScan]
      exact ih s _ hw.2 hcr

/-- A case-insensitive pattern occurs nowhere in `a ++ b` when no
character of `a` lowers to the pattern's first character (so no
occurrence can start in `a`, even straddling the boundary) and the
pattern does not occur in `b`. -/
theorem containsSubCI_append_false (p0 : Char) (ps : List Char) :
    ∀ (a b : List Char), (∀ c ∈ a, asciiLower c ≠ p0) →
      containsSubCI (p0 :: ps) b = false →
      containsSubCI (p0 :: ps) (a ++ b) = false := by
  intro a
  induction a with
  | nil => intro b _ hb; simpa using hb
  | cons c a ih =>
    intro b ha hb
    have h0 : asciiLower c ≠ p0 := ha c (List.mem_cons_self c a)
    have ha2 : ∀ x ∈ a, asciiLower x ≠ p0 := fun x hx => ha x (List.mem_cons_of_mem c hx)
    simp only [List.cons_append, containsSubCI, Bool.or_eq_false_iff]
    exact ⟨by simp [startsWithCI, h0], ih b ha2 hb⟩

/-- A newline-free text splits into its single line. -/
theorem splitNl_no_newline (l : List Char) (h : '\n' ∉ l) : splitNl l = [l] := by
  induction l with
  | nil => rfl
  | cons c rest ih =>
    have hc : c ≠ '\n' := fun hx => h (hx ▸ List.mem_cons_self c rest)
    have hr : '\n' ∉ rest := fun hx => h (List.mem_cons_of_mem c hx)
    rw [splitNl, if_neg hc, ih hr]

/-- Stripping a text whose first character is not whitespace keeps that
first character. -/
theorem pyStrip_head_cons (c : Char) (r : List Char) (hc : pyIsSpace c = false) :
    ∃ t, pyStrip (c :: r) = c :: t := by
  rw [pyStrip]
  rw [List.dropWhile_cons, if_neg (by simp [hc])]
  have hsfx : (c :: r).reverse.dropWhile pyIsSpace <:+ (c :: r).reverse :=
    List.dropWhile_suffix pyIsSpace
  have hpre : ((c :: r).reverse.dropWhile pyIsSpace).reverse <+: (c :: r) := by
    have := List.reverse_prefix.mpr hsfx
    simpa using this
  have hne : ((c :: r).reverse.dropWhile pyIsSpace).reverse ≠ [] := by
    intro hx
    have : (c :: r).reverse.dropWhile pyIsSpace = [] := by
      simpa using congrArg List.reverse hx
    rw [List.dropWhile_eq_nil_iff] at this
    have := this c (by simp)
    simp [hc] at this
  rcases hpre with ⟨t2, ht⟩
  cases hv : ((c :: r).reverse.dropWhile pyIsSpace).reverse with
  | nil => exact absurd hv hne
  | cons v0 vt =>
    rw [hv] at ht
    have : v0 = c := by
      have := congrArg List.head? ht
      simpa using this
    exact ⟨vt, by rw [this]⟩

/-- On a newline-free text whose single line is not a `--` comment, the
comment-line filter and join of `extract_parent_tables` is the
identity. -/
theorem joinedNoCommentLines_single (l : List Char) (hnl : '\n' ∉ l)
    (h : startsWithL "--".data (pyStrip l) = false) :
    joinedNoCommentLines l = l := by
  rw [joinedNoCommentLines, splitNl_no_newline l hnl]
  simp [List.filter, h, List.intercalate]

/-- The `from`/`join` table matcher fails where the keyword does not
start. -/
theorem matchKwTable_none (kw l : List Char) (h : startsWithCI kw l = false) :
    matchKwTable kw l = none := by
  simp [matchKwTable, h]

/-- Text with no case-insensitive occurrence of the keyword yields no
table match at any position. -/
theorem scanKwTable_nil (kw : List Char) :
    ∀ (l : List Char) (s : Nat), containsSubCI kw l = false →
      scanMatches (matchKwTable kw) l s = [] := by
  intro l
  induction l with
  | nil => intro s _; cases s <;> rfl
  | cons c rest ih =>
    intro s h
    simp only [containsSubCI, Bool.or_eq_false_iff] at h
    cases s with
    | zero =>
      rw [scanMatches, matchKwTable_none kw _ h.1]
      exact ih 0 h.2
    | succ s =>
      rw [scanMatches]
      exact ih s h.2

set_option maxHeartbeats 4000000 in
/-- The `from` scan through the canonical head yields its one match,
`schema1.table1`, then continues on the tail. -/
theorem scan_fromTable_sqlC1head (r : List Char) :
    scanMatches (matchKwTable "from".data) (sqlC1head.data ++ r) 0 =
      (some "schema1".data, "table1".data) ::
        scanMatches (matchKwTable "from".data) r 0 := rfl

set_option maxHeartbeats 4000000 in
/-- The `join` scan through the canonical head yields its one match,
`schema2.table2`, then continues on the tail. -/
theorem scan_joinTable_sqlC1head (r : List Char) :
    scanMatches (matchKwTable "join".data) (sqlC1head.data ++ r) 0 =
      (some "schema2".data, "table2".data) ::
        scanMatches (matchKwTable "join".data) r 0 := rfl

/-- On every SQL text of the canonical form whose ON-clause tail brings
no `from`/`join` occurrence, no CTE alias the extractor would register
(no `with` occurrence and no comma, the two openers of the CTE
pattern), and no newline, the simple extractor returns exactly the bare
lower-cased names. -/
theorem simple_extract_sqlC1_form (tail : String)
    (hwith : containsSubCI "with".data tail.data = false)
    (hcomma : ',' ∉ tail.data)
    (hfrom : containsSubCI "from".data tail.data = false)
    (hjoin : containsSubCI "join".data tail.data = false)
    (hnl : '\n' ∉ tail.data) :
    Lineage.extract_parent_tables (sqlC1form tail) = {"table1", "table2"} := by
  have hD : (sqlC1form tail).data = sqlC1head.data ++ tail.data := rfl
  have hW : containsSubCI "with".data (sqlC1head.data ++ tail.data) = false := by
    show containsSubCI ('w' :: "ith".data) (sqlC1head.data ++ tail.data) = false
    exact containsSubCI_append_false 'w' "ith".data _ _ (by decide) hwith
  have hC : ',' ∉ sqlC1head.data ++ tail.data := by
    intro hx
    rcases List.mem_append.mp hx with h | h
    · exact absurd h (by decide)
    · exact hcomma h
  have hctes : extract_ctes (sqlC1form tail) = [] := by
    rw [extract_ctes, hD, ctesScan_nil _ 0 [] hW hC]
    rfl
  have hJ : joinedNoCommentLines (sqlC1form tail).data = sqlC1head.data ++ tail.data := by
    rw [hD]
    apply joinedNoCommentLines_single
    · intro hx
      rcases List.mem_append.mp hx with h | h
      · exact absurd h (by decide)
      · exact hnl h
    · obtain ⟨t, ht⟩ := pyStrip_head_cons 'S'
        ("ELECT * FROM schema1.table1 JOIN schema2.table2 ON ".data ++ tail.data)
        (by decide)
      rw [show sqlC1head.data ++ tail.data =
            'S' :: ("ELECT * FROM schema1.table1 JOIN schema2.table2 ON ".data ++
              tail.data) from rfl, ht]
      rfl
  rw [Lineage.extract_parent_tables, hctes, hJ,
      scan_fromTable_sqlC1head, scan_joinTable_sqlC1head,
      scanKwTable_nil "from".data tail.data 0 hfrom,
      scanKwTable_nil "join".data tail.data 0 hjoin]
  decide

end Lineage

/-- C1 counterexample: on the canonical SQL of the claimed form, the
simple extractor (src/lineage_mapper/lineage.py) returns the bare
lower-cased names and in particular does not contain the claimed
schema-qualified `schema1.table1`. -/
theorem claim_c1_counterexample :
    Lineage.extract_parent_tables SqlWatchPup.sqlC1 = {"table1", "table2"} ∧
      ("schema1.table1" : String) ∉ Lineage.extract_parent_tables SqlWatchPup.sqlC1 := by
  constructor
  · decide
  · decide

/-- C1 (amended): for every SQL text of the claimed form
`SELECT * FROM schema1.table1 JOIN schema2.table2 ON <tail>` — the
ON-clause tail arbitrary, as long as it brings no table reference of
its own (no `from`/`join` occurrence and no `{` template brace) — the
advanced extractor (src/data_lineage/generate_lineage.py) returns
exactly `{schema1.table1, schema2.table2}` whenever its
structured-parse layer yields nothing (in particular on any parse
failure); the simple extractor (src/lineage_mapper/lineage.py) returns
the bare lower-cased names `{table1, table2}`, discarding the schema
qualifiers, for every such tail that moreover registers no CTE alias
(no `with` occurrence and no comma, the two openers of its CTE
pattern) and stays on one line — in particular on the canonical
instance `ON table1.id = table2.id`. -/
theorem claim_c1 :
    (∀ (tail : String) (primary : Option (List String)),
      SqlWatchPup.containsSubCI "from".data tail.data = false →
      SqlWatchPup.containsSubCI "join".data tail.data = false →
      '{' ∉ tail.data →
      GenerateLineage.step1_result primary (SqlWatchPup.sqlC1form tail).data = ∅ →
      GenerateLineage.extract_parent_tables primary (SqlWatchPup.sqlC1form tail) =
        {"schema1.table1", "schema2.table2"}) ∧
    (∀ (tail : String),
      SqlWatchPup.containsSubCI "with".data tail.data = false →
      ',' ∉ tail.data →
      SqlWatchPup.containsSubCI "from".data tail.data = false →
      SqlWatchPup.containsSubCI "join".data tail.data = false →
      '\n' ∉ tail.data →
      Lineage.extract_parent_tables (SqlWatchPup.sqlC1form tail) =
        {"table1", "table2"}) ∧
    Lineage.extract_parent_tables SqlWatchPup.sqlC1 = {"table1", "table2"} := by
  refine ⟨?_, ?_, by decide⟩
  · intro tail primary hfrom hjoin hbrace hstep
    rw [GenerateLineage.extract_parent_tables, hstep]
    simp only [if_pos rfl]
    exact GenerateLineage.regex_layer_sqlC1_form tail hfrom hjoin hbrace
  · intro tail hwith hcomma hfrom hjoin hnl
    exact Lineage.simple_extract_sqlC1_form tail hwith hcomma hfrom hjoin hnl

/-- C1 witness: on the canonical ON-clause tail, with a failing
structured-parse layer, the advanced extractor returns exactly the two
schema-qualified identifiers, and the same tail satisfies the simple
extractor's side conditions, which returns the two bare names. -/
theorem claim_c1_witness :
    GenerateLineage.extract_parent_tables none
        (SqlWatchPup.sqlC1form "table1.id = table2.id") =
      {"schema1.table1", "schema2.table2"} ∧
    Lineage.extract_parent_tables (SqlWatchPup.sqlC1form "table1.id = table2.id") =
      {"table1", "table2"} :=
  ⟨claim_c1.1 "table1.id = table2.id" none (by decide) (by decide) (by decide) rfl,
   claim_c1.2.1 "table1.id = table2.id"
     (by decide) (by decide) (by decide) (by decide) (by decide)⟩

/-- C5 counterexample: with files `a.sql = SELECT * FROM raw.input` and
`b.sql = SELECT * FROM a` and no schema template, the simple pipeline's
graph does not contain `(raw.input, a)` (it strips the schema), and the
advanced pipeline's graph (here with a failing structured-parse layer)
does not contain `(a, b)` (its extractor only emits dot-qualified
sources). -/
theorem claim_c5_counterexample :
    ("raw.input", "a") ∉ Lineage.build_lineage_map SqlWatchPup.filesC5 ∧
      ("a", "b") ∉ GenerateLineage.process_sql_files none (fun _ => none) SqlWatchPup.filesC5 := by
  constructor
  · decide
  · decide

/-- C5 (amended): on those two files the simple pipeline produces exactly
`{(input, a), (a, b)}` — the schema qualifier of `raw.input` is
discarded — while the advanced pipeline produces exactly
`{(raw.input, a)}` when its structured layer yields nothing, and can
never contain the edge `(a, b)` for any structured-layer behaviour,
because its sources always carry a dot. -/
theorem claim_c5 :
    Lineage.build_lineage_map SqlWatchPup.filesC5 = {("input", "a"), ("a", "b")} ∧
    GenerateLineage.process_sql_files none (fun _ => none) SqlWatchPup.filesC5 =
      {("raw.input", "a")} ∧
    ∀ oracle : String → Option (List String),
      ("a", "b") ∉ GenerateLineage.process_sql_files none oracle SqlWatchPup.filesC5 := by
  refine ⟨by decide, by decide, ?_⟩
  intro oracle h
  rw [GenerateLineage.process_sql_files,
    SqlWatchPup.mem_foldl_union (GenerateLineage.file_relationships none oracle)] at h
  rcases h with h | ⟨f, _, hx⟩
  · simp at h
  · rw [GenerateLineage.file_relationships, Finset.mem_image] at hx
    rcases hx with ⟨source, hs, he⟩
    rcases Prod.mk.injEq .. ▸ he with ⟨h1, _⟩
    have hd := GenerateLineage.mem_extract_parent_tables_dot _ _ _ hs
    rw [h1] at hd
    simp at hd

namespace Lineage

open SqlWatchPup

theorem mem_ctesScan_of_match (c : Char) (rest : List Char) (lineRev : List Char)
    (nm : List Char) (n : Nat) (hm : matchCte (c :: rest) = some (nm, n))
    (hc : startsWithL "--".data (pyStrip lineRev.reverse) = false) :
    nm.map asciiLower ∈ ctesScan (c :: rest) 0 lineRev := by
  rw [ctesScan, hm]
  simp [hc]

set_option maxHeartbeats 2000000 in
theorem matchCte_c2_form (r : List Char) :
    matchCte ("WITH cte AS (".data ++ r) = some ("cte".data, 13) := rfl

theorem matchCte_none_of_head (c : Char) (rest : List Char)
    (h1 : asciiLower c ≠ 'w') (h2 : c ≠ ',') : matchCte (c :: rest) = none := by
  have hsw : startsWithCI "with".data (c :: rest) = false := by
    simp [startsWithCI, h1]
  simp [matchCte, hsw, h2]

theorem mem_pyStrip (l : List Char) (x : Char) (hx : x ∈ pyStrip l) : x ∈ l := by
  rw [pyStrip] at hx
  rw [List.mem_reverse] at hx
  have h1 := (List.dropWhile_sublist (l := (l.dropWhile pyIsSpace).reverse) pyIsSpace).mem hx
  rw [List.mem_reverse] at h1
  exact (List.dropWhile_sublist pyIsSpace).mem h1

theorem lineOk_of_no_dash (lineRev : List Char) (h : ∀ x ∈ lineRev, x ≠ '-') :
    startsWithL "--".data (pyStrip lineRev.reverse) = false := by
  cases hsp : pyStrip lineRev.reverse with
  | nil => rfl
  | cons a t =>
    by_cases ha : a = '-'
    · subst ha
      have hm : '-' ∈ pyStrip lineRev.reverse := by rw [hsp]; exact List.mem_cons_self _ _
      have hm2 := mem_pyStrip _ _ hm
      rw [List.mem_reverse] at hm2
      exact absurd rfl (h _ hm2)
    · simp [startsWithL, ha, eq_comm]

theorem cte_mem_ctesScan_pre :
    ∀ (pre : List Char) (lineRev : List Char) (R : List Char),
      (∀ c ∈ pre, asciiLower c ≠ 'w' ∧ c ≠ ',' ∧ c ≠ '-') →
      (∀ c ∈ lineRev, c ≠ '-') →
      "cte".data ∈ ctesScan (pre ++ ("WITH cte AS (".data ++ R)) 0 lineRev := by
  intro pre
  induction pre with
  | nil =>
    intro lineRev R _ hlr
    rw [List.nil_append]
    exact mem_ctesScan_of_match 'W' _ lineRev "cte".data 13 (matchCte_c2_form R)
      (lineOk_of_no_dash lineRev hlr)
  | cons c pre ih =>
    intro lineRev R hpre hlr
    have hp := hpre c (List.mem_cons_self c pre)
    have hm := matchCte_none_of_head c (pre ++ ("WITH cte AS (".data ++ R)) hp.1 hp.2.1
    rw [List.cons_append, ctesScan, hm]
    have hpre2 : ∀ x ∈ pre, asciiLower x ≠ 'w' ∧ x ≠ ',' ∧ x ≠ '-' :=
      fun x hx => hpre x (List.mem_cons_of_mem c hx)
    by_cases hc : c = '\n'
    · rw [updLine, if_pos hc]
      exact ih [] R hpre2 (by simp)
    · rw [updLine, if_neg hc]
      refine ih _ R hpre2 ?_
      intro x hx
      rcases List.mem_cons.mp hx with rfl | hx
      · exact hp.2.2
      · exact hlr x hx

theorem cte_mem_extract_ctes_c2 (pre mid post : String)
    (hpre : ∀ c ∈ pre.data, asciiLower c ≠ 'w' ∧ c ≠ ',' ∧ c ≠ '-') :
    ("cte" : String) ∈ extract_ctes (String.mk (pre.data ++
      ("WITH cte AS (".data ++ mid.data ++ (") SELECT * FROM cte".data ++ post.data)))) := by
  rw [extract_ctes]
  exact List.mem_map.mpr
    ⟨"cte".data, cte_mem_ctesScan_pre pre.data [] _ hpre (by simp), rfl⟩

theorem mem_addParent_foldl (ctes : List String) :
    ∀ (ms : List (Option (List Char) × List Char)) (acc : Finset String) (x : String),
      x ∈ ms.foldl (addParent ctes) acc → x ∈ ctes → x ∈ acc := by
  intro ms
  induction ms with
  | nil => intro acc x hx _; exact hx
  | cons m ms ih =>
    intro acc x hx hctes
    simp only [List.foldl_cons] at hx
    have h := ih _ _ hx hctes
    simp only [addParent] at h
    split at h
    · exact h
    · rcases Finset.mem_insert.mp h with h | h
      · subst h; rename_i hguard; exact absurd hctes hguard
      · exact h

theorem not_mem_extract_of_mem_ctes (s : String) (x : String)
    (hc : x ∈ extract_ctes s) : x ∉ extract_parent_tables s := by
  intro hx
  rw [extract_parent_tables] at hx
  have := mem_addParent_foldl (extract_ctes s) _ ∅ x hx hc
  simp at this

end Lineage

/-- C2: for every SQL text containing `WITH cte AS (` ... `) SELECT *
FROM cte` ... — the CTE body and the tail arbitrary, and any prefix
before the `WITH` whose characters cannot start or comment out a CTE
match (no `w`/`W`, no comma, no dash) — the simple extractor's result
does not contain `cte`; and the advanced extractor's result never
contains `cte` for any SQL text and any structured-layer behaviour,
since all its elements are dot-qualified. -/
theorem claim_c2 :
    (∀ pre mid post : String,
      (∀ c ∈ pre.data, SqlWatchPup.asciiLower c ≠ 'w' ∧ c ≠ ',' ∧ c ≠ '-') →
      ("cte" : String) ∉ Lineage.extract_parent_tables
        (String.mk (pre.data ++ ("WITH cte AS (".data ++ mid.data ++
          (") SELECT * FROM cte".data ++ post.data))))) ∧
    (∀ (primary : Option (List String)) (sql : String),
      ("cte" : String) ∉ GenerateLineage.extract_parent_tables primary sql) := by
  constructor
  · intro pre mid post hpre
    exact Lineage.not_mem_extract_of_mem_ctes _ _
      (Lineage.cte_mem_extract_ctes_c2 pre mid post hpre)
  · intro primary sql h
    have := GenerateLineage.mem_extract_parent_tables_dot primary sql _ h
    simp at this

/-- C2 witness: on the concrete text
`explain WITH cte AS (SELECT 1) SELECT * FROM cte`, the name `cte` is
not extracted. -/
theorem claim_c2_witness :
    ("cte" : String) ∉ Lineage.extract_parent_tables
      (String.mk ("explain ".data ++ ("WITH cte AS (".data ++ "SELECT 1".data ++
        (") SELECT * FROM cte".data ++ "".data)))) :=
  claim_c2.1 "explain " "SELECT 1" "" (by decide)

namespace DataQuality

theorem column_actions_countP (fw : Framework) (schema table qualified : String)
    (col : ColumnConfig) :
    (column_actions fw schema table qualified col).countP isTested = col.tests.length := by
  rw [column_actions, List.countP_map]
  simp [Function.comp_def, isTested]

theorem countP_flatten_eq {α : Type} (p : α → Bool) :
    ∀ L : List (List α), (L.flatten).countP p = (L.map (List.countP p)).sum := by
  intro L
  induction L with
  | nil => simp
  | cons a L ih => simp [List.countP_append, ih]

theorem table_actions_countP (fw : Framework) (tc : String × TableConfig) :
    (table_actions fw tc).countP isTested =
      (tc.2.columns.map (fun c => c.tests.length)).sum := by
  rw [table_actions, countP_flatten_eq, List.map_map]
  congr 1
  refine List.map_congr_left ?_
  intro col _
  exact column_actions_countP ..

theorem mem_table_actions_isTested (fw : Framework) (tc : String × TableConfig)
    (a : Action) (ha : a ∈ table_actions fw tc) : isTested a = true := by
  rw [table_actions] at ha
  rcases List.mem_flatten.mp ha with ⟨as, has, ha2⟩
  rcases List.mem_map.mp has with ⟨col, _, rfl⟩
  rcases List.mem_map.mp ha2 with ⟨t, _, rfl⟩
  rfl

/-- C7: the test runner records failures rather than raising: an unknown
custom test name yields a failed result (with a logged warning); a query
exception during a built-in test yields a failed result (the error is
caught and logged); a name unknown to the built-in dispatch yields a
failed result; and the run always continues — a full run records exactly
one result per configured test. -/
theorem claim_c7 :
    (∀ (fw : Framework) (schema table column test : String),
      fw.custom_tests.lookup test = none →
      _run_custom_test fw schema table column test = false) ∧
    (∀ (fw : Framework) (schema table column test : String) (params : Option Params)
       (e : String), fw.db = (fun _ => Except.error e) →
      _run_default_test fw schema table column test params = false) ∧
    (∀ (fw : Framework) (schema table column test : String) (params : Option Params),
      builtin_tests.contains test = false →
      _run_default_test fw schema table column test params = false) ∧
    (∀ (fw : Framework) (table_configs : List (String × TableConfig)),
      (run_tests fw table_configs).countP isTested = totalTests table_configs) := by
  refine ⟨?_, ?_, ?_, ?_⟩
  · intro fw schema table column test h
    simp [_run_custom_test, h]
  · intro fw schema table column test params e hdb
    have hrun : ∀ q, runScalarQuery fw q = false := by
      intro q; simp [runScalarQuery, hdb]
    have hacc : ∀ qt c p, acceptedValuesQuery fw qt c p = false := by
      intro qt c p
      rcases p with _ | p
      · rfl
      · rcases p with vs | n
        · exact hrun _
        · rfl
    rw [_run_default_test]
    split_ifs <;> first | rfl | exact hrun _ | exact hacc _ _ _
  · intro fw schema table column test params h
    simp only [builtin_tests] at h
    rw [List.contains_eq_any_beq] at h
    simp only [List.any_cons, List.any_nil, Bool.or_eq_false_iff, beq_eq_false_iff_ne,
      ne_eq] at h
    rw [_run_default_test]
    rw [if_neg h.1, if_neg h.2.1, if_neg h.2.2.1, if_neg h.2.2.2.1]
  · intro fw table_configs
    rw [run_tests, List.countP_append, countP_flatten_eq, List.map_map, totalTests]
    have h1 : [Action.closedConn].countP isTested = 0 := rfl
    rw [h1, Nat.add_zero]
    congr 1
    refine List.map_congr_left ?_
    intro tc _
    exact table_actions_countP fw tc

/-- C7 witness: with an empty custom-test directory and a database whose
every query raises, an unknown test and a built-in test both come back
failed. -/
theorem claim_c7_witness :
    _run_custom_test
      ⟨fun _ => Except.error "db down", "main", [], fun _ _ _ _ => Except.ok "q"⟩
      "main" "t" "c" "my_test" = false ∧
    _run_default_test
      ⟨fun _ => Except.error "db down", "main", [], fun _ _ _ _ => Except.ok "q"⟩
      "main" "t" "c" "no_nulls" none = false :=
  ⟨claim_c7.1 _ "main" "t" "c" "my_test" rfl,
   claim_c7.2.1 _ "main" "t" "c" "no_nulls" none "db down" rfl⟩

/-- C8: a full test run closes its single database connection exactly
once, at the very end of the run, whatever the configuration and however
many individual tests failed (test failures are values, not exceptions,
so the loop always reaches the final close). -/
theorem claim_c8 : ∀ (fw : Framework) (table_configs : List (String × TableConfig)),
    (run_tests fw table_configs).count Action.closedConn = 1 ∧
      (run_tests fw table_configs).getLast? = some Action.closedConn := by
  intro fw table_configs
  constructor
  · rw [run_tests, List.count_append]
    have h0 : ((table_configs.map (table_actions fw)).flatten).count Action.closedConn = 0 := by
      rw [List.count_eq_zero]
      intro hmem
      rcases List.mem_flatten.mp hmem with ⟨as, has, ha2⟩
      rcases List.mem_map.mp has with ⟨tc, _, rfl⟩
      have := mem_table_actions_isTested fw tc _ ha2
      simp [isTested] at this
    rw [h0]
    rfl
  · rw [run_tests, List.getLast?_concat]

end DataQuality

namespace SqlWatchPup

theorem splitDot_ne_nil (l : List Char) : splitDot l ≠ [] := by
  cases l with
  | nil => simp [splitDot]
  | cons c rest =>
    rw [splitDot]
    split
    · simp
    · split <;> simp_all

theorem splitDot_no_dot (l : List Char) (h : '.' ∉ l) : splitDot l = [l] := by
  induction l with
  | nil => rfl
  | cons c rest ih =>
    have hc : c ≠ '.' := fun hx => h (by simp [hx])
    have hr : '.' ∉ rest := fun hx => h (by simp [hx])
    rw [splitDot, if_neg hc, ih hr]

theorem splitDot_append (a b : List Char) (h : '.' ∉ a) :
    splitDot (a ++ '.' :: b) = a :: splitDot b := by
  induction a with
  | nil => simp [splitDot]
  | cons c a ih =>
    have hc : c ≠ '.' := fun hx => h (by simp [hx])
    have ha : '.' ∉ a := fun hx => h (by simp [hx])
    rw [List.cons_append, splitDot, if_neg hc, ih ha]

theorem splitDot_length (l : List Char) : (splitDot l).length = l.count '.' + 1 := by
  induction l with
  | nil => rfl
  | cons c rest ih =>
    rw [splitDot]
    by_cases hc : c = '.'
    · subst hc
      simp [List.count_cons, ih]
    · rw [if_neg hc]
      rcases hsp : splitDot rest with _ | ⟨h1, t1⟩
      · exact absurd hsp (splitDot_ne_nil rest)
      · rw [hsp] at ih
        simp only [List.length_cons] at ih ⊢
        simp [List.count_cons, hc, ih]

theorem splitDot_headD (l : List Char) :
    (splitDot l).headD [] = l.takeWhile (fun c => c ≠ '.') := by
  induction l with
  | nil => rfl
  | cons c rest ih =>
    rw [splitDot]
    by_cases hc : c = '.'
    · subst hc; simp [List.takeWhile]
    · rw [if_neg hc]
      rcases hsp : splitDot rest with _ | ⟨h1, t1⟩
      · exact absurd hsp (splitDot_ne_nil rest)
      · rw [hsp] at ih
        simp only [List.headD_cons] at ih
        simp [List.takeWhile, hc, ih]

end SqlWatchPup

/-- C10: `_parse_table_identifier` (identical in
src/data_quality/run_dq_tests.py and src/quality_checks/quality_check.py)
returns the dot-split (schema, table) pair when the identifier has
exactly one dot, and otherwise — zero dots or several — pairs the
connector's default schema with the text before the first dot,
discarding any remaining segments. -/
theorem claim_c10 :
    (∀ (fw : DataQuality.Framework) (a b : List Char), '.' ∉ a → '.' ∉ b →
      DataQuality._parse_table_identifier fw (String.mk (a ++ '.' :: b)) =
        (String.mk a, String.mk b)) ∧
    (∀ (fw : DataQuality.Framework) (s : String), s.data.count '.' ≠ 1 →
      DataQuality._parse_table_identifier fw s =
        (fw.default_schema, String.mk (s.data.takeWhile (fun c => c ≠ '.')))) := by
  constructor
  · intro fw a b ha hb
    rw [DataQuality._parse_table_identifier]
    have : SqlWatchPup.splitDot (String.mk (a ++ '.' :: b)).data = [a, b] := by
      show SqlWatchPup.splitDot (a ++ '.' :: b) = [a, b]
      rw [SqlWatchPup.splitDot_append a b ha, SqlWatchPup.splitDot_no_dot b hb]
    rw [this]
  · intro fw s h
    have hlen : (SqlWatchPup.splitDot s.data).length ≠ 2 := by
      rw [SqlWatchPup.splitDot_length]
      omega
    have hhead := SqlWatchPup.splitDot_headD s.data
    rw [DataQuality._parse_table_identifier]
    rcases hsp : SqlWatchPup.splitDot s.data with _ | ⟨h1, _ | ⟨h2, t2⟩⟩
    · exact absurd hsp (SqlWatchPup.splitDot_ne_nil s.data)
    · rw [hsp] at hhead
      simp only [List.headD_cons] at hhead
      simp [hhead]
    · rw [hsp] at hlen hhead
      cases t2 with
      | nil => simp at hlen
      | cons h3 t3 =>
        simp only [List.headD_cons] at hhead
        simp [hhead]

/-- C10 witness: `a.b` splits into `(a, b)`; `a.b.c` (two dots) and `abc`
(no dot) both pair the default schema `main` with the text before the
first dot. -/
theorem claim_c10_witness :
    DataQuality._parse_table_identifier
        ⟨fun _ => Except.error "", "main", [], fun _ _ _ _ => Except.ok ""⟩ "a.b" =
      ("a", "b") ∧
    DataQuality._parse_table_identifier
        ⟨fun _ => Except.error "", "main", [], fun _ _ _ _ => Except.ok ""⟩ "a.b.c" =
      ("main", "a") ∧
    DataQuality._parse_table_identifier
        ⟨fun _ => Except.error "", "main", [], fun _ _ _ _ => Except.ok ""⟩ "abc" =
      ("main", "abc") := by
  refine ⟨?_, ?_, ?_⟩
  · exact claim_c10.1 _ ['a'] ['b'] (by decide) (by decide)
  · have := claim_c10.2 ⟨fun _ => Except.error "", "main", [], fun _ _ _ _ => Except.ok ""⟩
      "a.b.c" (by decide)
    simpa using this
  · have := claim_c10.2 ⟨fun _ => Except.error "", "main", [], fun _ _ _ _ => Except.ok ""⟩
      "abc" (by decide)
    simpa using this
